import Mathlib

/-!
Verification of the rgit specification against a shallow embedding of the
source (src/app.rs, src/git_client.rs). Bytes are modelled as `Nat` values
below 256 in `List Nat`; Rust `u32` arithmetic that cannot overflow is
modelled by plain `Nat` arithmetic; a Rust panic is modelled as `none`.
-/

namespace RGit

/-- Truncation to 32 bits, modelling `u32` arithmetic. -/
def u32 (n : Nat) : Nat := n % 4294967296

/-- 32-bit left rotation. -/
def rotl32 (k x : Nat) : Nat := u32 ((x <<< k) ||| (x >>> (32 - k)))

/-- Big-endian 4-byte rendering of a 32-bit word. -/
def be4 (w : Nat) : List Nat :=
  [(w >>> 24) &&& 255, (w >>> 16) &&& 255, (w >>> 8) &&& 255, w &&& 255]

/-- Bytes of a string, ASCII code points (the repository only formats ASCII). -/
def strB (s : String) : List Nat := s.data.map Char.toNat

/-- ASCII decimal digits of a natural number, fuel-driven so that it reduces
in the kernel; mirrors the rendering done by Rust `format!` for integers. -/
def natDigitsAux : Nat → Nat → List Nat
  | 0, _ => []
  | fuel+1, n => if n < 10 then [48 + n] else natDigitsAux fuel (n / 10) ++ [48 + n % 10]

/-- ASCII decimal rendering of a natural number. -/
def natDigits (n : Nat) : List Nat := natDigitsAux (n + 1) n

/-- Lowercase hex digit for a value below 16, as in the Rust `hex` crate. -/
def hexDigit (n : Nat) : Nat := if n < 10 then 48 + n else 87 + n

/-- Lowercase hex encoding of a byte list, modelling `hex::encode`. -/
def hexEncode (bytes : List Nat) : List Nat :=
  bytes.foldr (fun b acc => hexDigit (b / 16) :: hexDigit (b % 16) :: acc) []

/-! ## SHA-1

Executable SHA-1 over byte lists, used by `GitObject::new` and
`make_git_object` in the source (via the `sha1` crate). -/

/-- SHA-1 padding: append 0x80, zero fill to 56 mod 64, then the bit length
as 8 big-endian bytes. -/
def sha1Pad (msg : List Nat) : List Nat :=
  let ml := 8 * msg.length
  let k := (119 - (msg.length % 64)) % 64
  msg ++ [128] ++ List.replicate k 0 ++
    [(ml >>> 56) &&& 255, (ml >>> 48) &&& 255, (ml >>> 40) &&& 255, (ml >>> 32) &&& 255,
     (ml >>> 24) &&& 255, (ml >>> 16) &&& 255, (ml >>> 8) &&& 255, ml &&& 255]

/-- Split a byte list into 64-byte chunks (fuel-driven). -/
def chunks64Aux : Nat → List Nat → List (List Nat)
  | 0, _ => []
  | _, [] => []
  | fuel+1, l => l.take 64 :: chunks64Aux fuel (l.drop 64)

/-- Split a byte list into 64-byte chunks. -/
def chunks64 (l : List Nat) : List (List Nat) := chunks64Aux l.length l

/-- Group bytes four at a time into big-endian 32-bit words. -/
def words16 : List Nat → List Nat
  | a :: b :: c :: d :: rest =>
      ((((((a <<< 8) ||| b) <<< 8) ||| c) <<< 8) ||| d) :: words16 rest
  | _ => []

/-- Message-schedule extension from 16 to 80 words. -/
def extendW (ws : List Nat) : List Nat :=
  (List.range 64).foldl
    (fun ws i =>
      let t := i + 16
      ws ++ [rotl32 1 ((ws.getD (t - 3) 0) ^^^ (ws.getD (t - 8) 0) ^^^
                       (ws.getD (t - 14) 0) ^^^ (ws.getD (t - 16) 0))])
    ws

/-- SHA-1 round function. -/
def sha1F (i b c d : Nat) : Nat :=
  if i < 20 then (b &&& c) ||| ((4294967295 ^^^ b) &&& d)
  else if i < 40 then b ^^^ c ^^^ d
  else if i < 60 then (b &&& c) ||| (b &&& d) ||| (c &&& d)
  else b ^^^ c ^^^ d

/-- SHA-1 round constant. -/
def sha1K (i : Nat) : Nat :=
  if i < 20 then 1518500249
  else if i < 40 then 1859775393
  else if i < 60 then 2400959708
  else 3395469782

/-- Compression of one 64-byte block into the running state (five words). -/
def sha1Compress (h : List Nat) (block : List Nat) : List Nat :=
  let w := extendW (words16 block)
  let h0 := h.getD 0 0
  let h1 := h.getD 1 0
  let h2 := h.getD 2 0
  let h3 := h.getD 3 0
  let h4 := h.getD 4 0
  let st := (List.range 80).foldl
    (fun st i =>
      match st with
      | (a, b, c, d, e) =>
        (u32 (rotl32 5 a + sha1F i b c d + e + sha1K i + w.getD i 0),
         a, rotl32 30 b, c, d))
    (h0, h1, h2, h3, h4)
  [u32 (h0 + st.1), u32 (h1 + st.2.1), u32 (h2 + st.2.2.1),
   u32 (h3 + st.2.2.2.1), u32 (h4 + st.2.2.2.2)]

/-- Render the five-word state as the 20-byte digest. -/
def sha1Digest : List Nat → List Nat
  | [h0, h1, h2, h3, h4] => be4 h0 ++ be4 h1 ++ be4 h2 ++ be4 h3 ++ be4 h4
  | _ => []

/-- SHA-1 of a byte list: 20 digest bytes. -/
def sha1 (msg : List Nat) : List Nat :=
  sha1Digest ((chunks64 (sha1Pad msg)).foldl sha1Compress
    [1732584193, 4023233417, 2562383102, 271733878, 3285377520])

/-! ## Git objects (git_client.rs lines 25-98, app.rs lines 90-102) -/

/-- The four object kinds of `enum GitObjectType`. -/
inductive GitObjectType
  | Blob
  | Commit
  | Tag
  | Tree
deriving DecidableEq

/-- ASCII name of an object kind, the `Display` impl in git_client.rs. -/
def typeBytes : GitObjectType → List Nat
  | .Blob => strB "blob"
  | .Commit => strB "commit"
  | .Tag => strB "tag"
  | .Tree => strB "tree"

/-- The object header `format!("{} {}\0", object_type, size)` built by
`GitObject::new` and `GitObject::persist`; identically by
`App::make_git_object` in app.rs. -/
def gitHeader (t : GitObjectType) (size : Nat) : List Nat :=
  typeBytes t ++ [32] ++ natDigits size ++ [0]

/-- The struct `GitObject`: hex id, payload, kind (`size` is determined by
`content` and is omitted). -/
structure GitObject where
  id : List Nat
  content : List Nat
  objectType : GitObjectType
deriving DecidableEq

/-- `GitObject::new` (git_client.rs lines 63-79): hash the header followed
by the content with SHA-1 and store the hex digest as the id. -/
def GitObject.new (content : List Nat) (t : GitObjectType) : GitObject :=
  { id := hexEncode (sha1 (gitHeader t content.length ++ content)),
    content := content,
    objectType := t }

/-- The hash computed by `App::make_git_object` (app.rs lines 90-102) for a
given type name: SHA-1 of header plus content, binary form. -/
def makeGitObjectHash (objType : List Nat) (content : List Nat) : List Nat :=
  sha1 (objType ++ [32] ++ natDigits content.length ++ [0] ++ content)

/-- Modelled from the spec, section 3: the OID preimage
`type_name ASCII || " " || decimal_length || 0x00 || payload`; comparator
for the refinement stated by C1. -/
def specOidPreimage (t : GitObjectType) (payload : List Nat) : List Nat :=
  typeBytes t ++ [32] ++ natDigits payload.length ++ [0] ++ payload

/-! ## Size encodings (git_client.rs lines 474-502) -/

/-- Loop body of `parse_size_encoding`. Each byte contributes its low seven
bits at shift `4 + 7 * c`; the loop stops at the first byte with the high
bit clear. A failed one-byte read leaves the zero-initialised buffer in
place, so end of input terminates the loop with the size unchanged, exactly
as in the source where the `read_exact` result is discarded. -/
def parseSizeEncodingAux : Nat → Nat → List Nat → Nat × List Nat
  | _, size, [] => (size, [])
  | c, size, b :: rest =>
    let size := ((b &&& 127) <<< (4 + 7 * c)) + size
    if b >>> 7 == 0 then (size, rest) else parseSizeEncodingAux (c + 1) size rest

/-- `parse_size_encoding(reader, base_size)`: returns the accumulated size
and the unread remainder of the stream. -/
def parseSizeEncoding (bytes : List Nat) (baseSize : Nat) : Nat × List Nat :=
  parseSizeEncodingAux 0 baseSize bytes

/-- One byte is a continuation-varint terminator iff its high bit is clear;
`isVarint` recognises a complete continuation varint: zero or more bytes
with the high bit set, then one terminator. -/
def isVarint : List Nat → Bool
  | [] => false
  | [b] => b >>> 7 == 0
  | b :: rest => (b >>> 7 != 0) && isVarint rest

/-- Value of a varint under the accumulation of `parse_size_encoding`
starting at byte index `c`: byte `i` contributes its low seven bits at
shift `4 + 7 * i`. -/
def shift47Value : Nat → List Nat → Nat
  | _, [] => 0
  | c, b :: rest => ((b &&& 127) <<< (4 + 7 * c)) + shift47Value (c + 1) rest

/-- Modelled from the spec, section 4.8: the standard little-endian
continuation varint, byte `i` contributing its low seven bits at shift
`7 * i`; comparator for C3. -/
def leb128Value : Nat → List Nat → Nat
  | _, [] => 0
  | c, b :: rest => ((b &&& 127) <<< (7 * c)) + leb128Value (c + 1) rest

/-- `parse_object_header` (git_client.rs lines 474-485): type tag from bits
6-4 of the first byte, low four bits of the size, continuation handled by
`parse_size_encoding`. Returns none when the stream is empty, where the
source would read an unspecified buffer. -/
def parseObjectHeader : List Nat → Option (Nat × Nat × List Nat)
  | [] => none
  | b :: rest =>
    let objType := (b >>> 4) &&& 7
    let objSize := b &&& 15
    if b >>> 7 == 1 then
      let r := parseSizeEncoding rest objSize
      some (objType, r.1, r.2)
    else some (objType, objSize, rest)

/-! ## Delta resolver (git_client.rs lines 347-421) -/

/-- The offset and size byte gathering inside the copy instruction: for
each index `i` below `count`, if bit `i` of `mask` is set one byte is read
from the stream and contributes `byte <<< (i * 8)`; otherwise nothing is
read. Returns none when a required byte is missing, where the source
panics via `expect`. -/
def readMaskBytesAux : Nat → Nat → Nat → Nat → List Nat → Option (Nat × List Nat)
  | _, 0, _, acc, bytes => some (acc, bytes)
  | i, count+1, mask, acc, bytes =>
    if mask &&& (1 <<< i) == 0 then readMaskBytesAux (i + 1) count mask acc bytes
    else
      match bytes with
      | [] => none
      | b :: rest => readMaskBytesAux (i + 1) count mask (acc + (b <<< (i * 8))) rest

/-- Modelled from the spec, section 4.8: the positions of the set bits of
`mask` among bit indexes `i, i+1, ...` for `count` positions — the bitmask
selecting which bytes follow a copy instruction; comparator for C6 and
C10. -/
def selBitsFrom : Nat → Nat → Nat → List Nat
  | _, 0, _ => []
  | i, count+1, mask =>
    if mask &&& (1 <<< i) == 0 then selBitsFrom (i + 1) count mask
    else i :: selBitsFrom (i + 1) count mask

/-- Modelled from the spec, section 4.8: consume one byte per selected bit
position, each present byte contributing eight bits at position `8 * i`,
absent bytes contributing zero; comparator for C6 and C10. -/
def takeMasked : List Nat → List Nat → Nat × List Nat
  | [], stream => (0, stream)
  | _ :: _, [] => (0, [])
  | i :: is, b :: stream =>
    let r := takeMasked is stream
    ((b <<< (8 * i)) + r.1, r.2)

/-- The instruction loop of `reconstruct_object`, fuel-driven: each
iteration consumes at least one byte so fuel equal to the stream length
suffices. A `none` result models a Rust panic (failed `expect`,
out-of-bounds slice); end of stream at an instruction boundary ends the
loop normally. The `u32` sum `offset + size` stays below `2 ^ 32` in every
theorem below, where Nat addition agrees with the source. -/
def processInstrAux (base : List Nat) : Nat → List Nat → List Nat → Option (List Nat)
  | _, [], acc => some acc
  | 0, _ :: _, _ => none
  | fuel+1, c :: rest, acc =>
    if c >>> 7 == 1 then
      match readMaskBytesAux 0 4 (c &&& 15) 0 rest with
      | none => none
      | some (offv, r1) =>
        match readMaskBytesAux 0 3 ((c >>> 4) &&& 7) 0 r1 with
        | none => none
        | some (szv, r2) =>
          let size := if szv == 0 then 65536 else szv
          if offv + size ≤ base.length then
            processInstrAux base fuel r2 (acc ++ (base.drop offv).take size)
          else none
    else
      let size := c &&& 127
      if size ≤ rest.length then
        processInstrAux base fuel (rest.drop size) (acc ++ rest.take size)
      else none

/-- The instruction loop started on a full stream. -/
def processInstructions (base : List Nat) (bytes : List Nat) (acc : List Nat) :
    Option (List Nat) :=
  processInstrAux base bytes.length bytes acc

/-- `reconstruct_object` (git_client.rs lines 347-421): parse and discard
the two leading size fields, run the instruction loop against the base
content, wrap the result as an object of the base's type. -/
def reconstructObject (delta : List Nat) (base : GitObject) : Option GitObject :=
  let r1 := parseSizeEncoding delta 0
  let r2 := parseSizeEncoding r1.2 0
  (processInstructions base.content r2.2 []).map (fun t => GitObject.new t base.objectType)

/-! ## Pack ingestion (git_client.rs lines 252-345) -/

/-- `read_exact` of `n` bytes from a stream: the taken bytes and the rest,
or none (a panic at the call sites below) when the stream is short. -/
def readExact (n : Nat) (bytes : List Nat) : Option (List Nat × List Nat) :=
  if bytes.length < n then none else some (bytes.take n, bytes.drop n)

/-- Big-endian 32-bit value of four bytes. -/
def beU32 (bytes : List Nat) : Nat :=
  match bytes with
  | [a, b, c, d] => ((((((a <<< 8) ||| b) <<< 8) ||| c) <<< 8) ||| d)
  | _ => 0

/-- The fixed prelude of `get_objects` (git_client.rs lines 280-301): skip
8 bytes, read 4 signature bytes and 4 version bytes without inspecting
either value, then read the big-endian object count. Returns the count and
the remaining stream; fails only on a short read. -/
def parsePackStart (res : List Nat) : Option (Nat × List Nat) :=
  (readExact 8 res).bind fun r0 =>
  (readExact 4 r0.2).bind fun _sig =>
  (readExact 4 _sig.2).bind fun _ver =>
  (readExact 4 _ver.2).bind fun rn =>
  some (beU32 rn.1, rn.2)

/-- A pack entry after zlib inflation: a stored kind with its payload, or a
REF-delta with its 20-byte base OID and inflated instruction stream. The
inflation step itself (the `flate2` crate) is external to the repository
and is abstracted at this boundary. -/
inductive PackEntry
  | normal (t : GitObjectType) (data : List Nat)
  | refDelta (baseHash : List Nat) (delta : List Nat)
deriving DecidableEq

/-- `HashMap::insert` keyed by the object id over an association list:
replace an existing binding, otherwise append. -/
def insertObj (objects : List (List Nat × GitObject)) (obj : GitObject) :
    List (List Nat × GitObject) :=
  if objects.any (fun p => p.1 == obj.id) then
    objects.map (fun p => if p.1 == obj.id then (p.1, obj) else p)
  else objects ++ [(obj.id, obj)]

/-- `HashMap::get` over the association list. -/
def lookupObj (objects : List (List Nat × GitObject)) (key : List Nat) :
    Option GitObject :=
  (objects.find? (fun p => p.1 == key)).map (fun p => p.2)

/-- The entry loop of `get_objects` (git_client.rs lines 304-342): store
non-delta entries under their computed id; for a REF-delta, reconstruct
against the base when the base is already present, otherwise print
`base object not found` and continue. The loop itself never fails; `none`
models a panic inside `reconstruct_object`. -/
def ingestEntries : List PackEntry → List (List Nat × GitObject) →
    Option (List (List Nat × GitObject))
  | [], objects => some objects
  | .normal t data :: rest, objects =>
      ingestEntries rest (insertObj objects (GitObject.new data t))
  | .refDelta baseHash delta :: rest, objects =>
      match lookupObj objects (hexEncode baseHash) with
      | some base =>
          match reconstructObject delta base with
          | none => none
          | some obj => ingestEntries rest (insertObj objects obj)
      | none => ingestEntries rest objects

/-! ## Ref population (git_client.rs lines 192-239) -/

/-- `str::starts_with` over byte lists. -/
def bytesIsPref : List Nat → List Nat → Bool
  | [], _ => true
  | _ :: _, [] => false
  | a :: as, b :: bs => a == b && bytesIsPref as bs

/-- `Path::parent` rendered back to a string: everything before the last
slash. -/
def parentPath (p : List Nat) : List Nat :=
  (((p.reverse).dropWhile (fun b => b != 47)).drop 1).reverse

/-- The file writes performed for one `(ref_name, ref_hash)` pair in the
`populate_refs` loop, as `(path, content)` pairs relative to the clone
directory: skip `HEAD`, `refs/pull` and `refs/tags` entries; write
`.git/HEAD` as `ref: <name>` when the hash equals the head hash; then
write either the remote-HEAD symbolic ref or the plain ref file. No write
carries a trailing newline. -/
def refWrites (head : List Nat) (r : List Nat × List Nat) :
    List (List Nat × List Nat) :=
  if r.1 == strB "HEAD" || bytesIsPref (strB "refs/pull") r.1 ||
      bytesIsPref (strB "refs/tags") r.1 then []
  else
    (if r.2 == head then [(strB ".git/HEAD", strB "ref: " ++ r.1)] else []) ++
    (if bytesIsPref (strB "refs/remotes") r.1 then
       [(parentPath (strB ".git/" ++ r.1) ++ strB "/HEAD", strB "ref: " ++ r.1)]
     else [(strB ".git/" ++ r.1, r.2)])

/-- `populate_refs` (git_client.rs lines 192-239) as the list of file
writes it performs: find the advertised `HEAD` hash (a panic, `none`, when
absent), then fold `refWrites` over the refs in iteration order. -/
def populateRefsWrites (refs : List (List Nat × List Nat)) :
    Option (List (List Nat × List Nat)) :=
  match refs.find? (fun r => r.1 == strB "HEAD") with
  | none => none
  | some hd => some (refs.foldl (fun ws r => ws ++ refWrites hd.2 r) [])

/-! ## ls-tree (app.rs lines 118-162) -/

/-- `slice::split` on the zero byte: the segments between zero bytes,
empty segments included, with an empty trailing segment when the input
ends in a zero byte. -/
def splitOnZeroAux : List Nat → List Nat → List (List Nat)
  | [], cur => [cur.reverse]
  | b :: rest, cur =>
      if b == 0 then cur.reverse :: splitOnZeroAux rest []
      else splitOnZeroAux rest (b :: cur)

/-- `content.split(0x00)`. -/
def splitOnZero (l : List Nat) : List (List Nat) := splitOnZeroAux l []

/-- `str::split_once(' ')`: the parts before and after the first space, or
none when no space occurs. -/
def splitOnceSpace : List Nat → Option (List Nat × List Nat)
  | [] => none
  | b :: rest =>
      if b == 32 then some ([], rest)
      else (splitOnceSpace rest).map (fun p => (b :: p.1, p.2))

/-- Sufficient model of `str::from_utf8` validity for the ASCII inputs of
the claims: every byte below 128. -/
def asciiOk (l : List Nat) : Bool := l.all (fun b => b < 128)

/-- Index pairing of a list starting at zero, as Rust `enumerate`. -/
def enumFromIdx : Nat → List α → List (Nat × α)
  | _, [] => []
  | i, a :: rest => (i, a) :: enumFromIdx (i + 1) rest

/-- One step of the `ls_tree` fold (app.rs lines 138-157), on an
accumulator of `(mode, name, hex sha)` triples. Index 0 parses a
mode/name pair (panicking, `none`, when the space is missing); later
indexes shorter than 20 bytes are skipped; otherwise the first 20 bytes
patch the sha of entry `i - 1` — a panic when `i - 1` is out of bounds —
and any mode/name pair after byte 20 starts the next entry. -/
def lsTreeStep (st : Option (List (List Nat × List Nat × List Nat)))
    (p : Nat × List Nat) : Option (List (List Nat × List Nat × List Nat)) :=
  st.bind fun acc =>
    if p.1 == 0 then
      if asciiOk p.2 then
        match splitOnceSpace p.2 with
        | some mn => some (acc ++ [(mn.1, mn.2, [])])
        | none => none
      else none
    else
      if p.2.length < 20 then some acc
      else
        if p.1 - 1 < acc.length then
          let old := acc.getD (p.1 - 1) ([], [], [])
          let acc := acc.set (p.1 - 1) (old.1, old.2.1, hexEncode (p.2.take 20))
          if asciiOk (p.2.drop 20) then
            match splitOnceSpace (p.2.drop 20) with
            | some mn => some (acc ++ [(mn.1, mn.2, [])])
            | none => some acc
          else none
        else none

/-- Byte-lexicographic strict order, as `str::cmp` on the UTF-8 bytes. -/
def bytesLt : List Nat → List Nat → Bool
  | [], [] => false
  | [], _ :: _ => true
  | _ :: _, [] => false
  | a :: as, b :: bs => if a < b then true else if b < a then false else bytesLt as bs

/-- Stable insertion into a list sorted by name: an element passes only
elements strictly below it, so earlier elements stay ahead of equal
ones as with the stable Rust `sort_by`. -/
def insertByName (x : List Nat × List Nat × List Nat) :
    List (List Nat × List Nat × List Nat) → List (List Nat × List Nat × List Nat)
  | [] => [x]
  | y :: ys => if bytesLt y.2.1 x.2.1 then y :: insertByName x ys else x :: y :: ys

/-- `sort_by(name)` as insertion sort. -/
def sortByName : List (List Nat × List Nat × List Nat) →
    List (List Nat × List Nat × List Nat)
  | [] => []
  | x :: xs => insertByName x (sortByName xs)

/-- The entry list computed by `ls_tree` from the decompressed object
bytes (header included): split on zero bytes, drop the header segment,
enumerate before filtering out empty segments, fold `lsTreeStep`. -/
def lsTreeEntries (content : List Nat) :
    Option (List (List Nat × List Nat × List Nat)) :=
  ((enumFromIdx 0 ((splitOnZero content).drop 1)).filter
      (fun p => !p.2.isEmpty)).foldl lsTreeStep (some [])

/-- The names printed by `ls_tree --name-only`, in the order printed. -/
def lsTreeNames (content : List Nat) : Option (List (List Nat)) :=
  (lsTreeEntries content).map (fun es => (sortByName es).map (fun e => e.2.1))

/-- `str::split_once(0x00 as char)` over bytes. -/
def splitOnceZero : List Nat → Option (List Nat × List Nat)
  | [] => none
  | b :: rest =>
      if b == 0 then some ([], rest)
      else (splitOnceZero rest).map (fun p => (b :: p.1, p.2))

/-- Modelled from the spec, section 4.3: decode a tree payload into
`(mode, name, hex oid)` entries by taking the mode and name up to the
first zero byte and then exactly 20 bytes of binary OID; comparator for
C9. -/
def specParseTreeAux : Nat → List Nat → Option (List (List Nat × List Nat × List Nat))
  | _, [] => some []
  | 0, _ :: _ => none
  | fuel+1, bytes =>
    (splitOnceZero bytes).bind fun hr =>
    (splitOnceSpace hr.1).bind fun mn =>
    if hr.2.length < 20 then none
    else (specParseTreeAux fuel (hr.2.drop 20)).map
      (fun es => (mn.1, mn.2, hexEncode (hr.2.take 20)) :: es)

/-- Spec-side tree decoding of a payload (header excluded). -/
def specParseTree (payload : List Nat) :
    Option (List (List Nat × List Nat × List Nat)) :=
  specParseTreeAux payload.length payload

/-- Spec-side `ls-tree --name-only` output: entry names in sort order. -/
def specTreeNames (payload : List Nat) : Option (List (List Nat)) :=
  (specParseTree payload).map (fun es => (sortByName es).map (fun e => e.2.1))

/-! ## Helper lemmas -/

theorem sha1Compress_len (h block : List Nat) : (sha1Compress h block).length = 5 := rfl

theorem sha1_foldl_len (blocks : List (List Nat)) :
    ∀ init : List Nat, init.length = 5 →
    (blocks.foldl sha1Compress init).length = 5 := by
  induction blocks with
  | nil => intro init h; simpa using h
  | cons b bs ih => intro init _; exact ih (sha1Compress init b) (sha1Compress_len init b)

theorem sha1Digest_len : ∀ hs : List Nat, hs.length = 5 → (sha1Digest hs).length = 20
  | [], h => by simp at h
  | [_], h => by simp at h
  | [_, _], h => by simp at h
  | [_, _, _], h => by simp at h
  | [_, _, _, _], h => by simp at h
  | [_, _, _, _, _], _ => by simp [sha1Digest, be4]
  | _ :: _ :: _ :: _ :: _ :: _ :: _, h => by simp at h

theorem sha1_len (msg : List Nat) : (sha1 msg).length = 20 :=
  sha1Digest_len _ (sha1_foldl_len _ _ rfl)

/-! ## C1 -/

set_option maxRecDepth 40000 in
/-- C1: the OID stored by `GitObject::new` is the hex form of the SHA-1 of
`type_name || " " || decimal length || 0x00 || payload`; the same digest is
computed by `make_git_object` in app.rs; the digest is 20 bytes and
depends only on the kind and payload; and the hash of a blob with payload
`hello` plus newline is `ce013625030ba8dba906f756967f9e9ca394464a`. -/
theorem c1_oid_formula (t : GitObjectType) (p : List Nat) :
    (GitObject.new p t).id = hexEncode (sha1 (specOidPreimage t p)) ∧
    makeGitObjectHash (typeBytes t) p = sha1 (specOidPreimage t p) ∧
    (sha1 (specOidPreimage t p)).length = 20 ∧
    (GitObject.new (strB "hello\n") GitObjectType.Blob).id =
      strB "ce013625030ba8dba906f756967f9e9ca394464a" := by
  refine ⟨?_, ?_, sha1_len _, by decide⟩
  · simp [GitObject.new, gitHeader, specOidPreimage, List.append_assoc]
  · simp [makeGitObjectHash, specOidPreimage, List.append_assoc]

/-! ## C2 -/

/-- C2 fails on the code: a pack whose only entry is a REF-delta naming a
base that is never present ingests successfully — the loop prints
`base object not found`, drops the delta, and `get_objects` returns `Ok`
with an empty object map; no `MissingBase` error exists. -/
theorem c2_missing_base_dropped :
    ingestEntries [PackEntry.refDelta (List.replicate 20 0) [1, 65]] [] = some [] := rfl

/-! ## C5 -/

/-- C5 fails on the code: `get_objects` reads the four signature bytes and
the four version bytes without comparing either to anything, so a stream
whose signature is `XXXX` and whose version is 9 parses past the header
and on to the entries (here zero entries, hence overall success); no
`BadPack` check exists. -/
theorem c5_no_signature_check :
    parsePackStart (List.replicate 8 0 ++ (strB "XXXX" ++ ([0, 0, 0, 9] ++ [0, 0, 0, 0]))) =
      some (0, []) ∧
    strB "XXXX" ≠ strB "PACK" ∧
    beU32 [0, 0, 0, 9] = 9 ∧ (9 : Nat) ≠ 2 ∧ (9 : Nat) ≠ 3 ∧
    ingestEntries [] [] = some [] := by decide

/-! ## C3 -/

theorem parseSizeEncodingAux_varint :
    ∀ v : List Nat, ∀ c s rest, isVarint v = true →
    parseSizeEncodingAux c s (v ++ rest) = (s + shift47Value c v, rest) := by
  intro v
  induction v with
  | nil => intro c s rest h; simp [isVarint] at h
  | cons b v ih =>
    intro c s rest h
    cases v with
    | nil =>
      simp only [isVarint] at h
      simp [parseSizeEncodingAux, h, shift47Value]
      omega
    | cons b2 v2 =>
      simp only [isVarint, Bool.and_eq_true, bne_iff_ne, ne_eq] at h
      obtain ⟨h1, h2⟩ := h
      have hb : (b >>> 7 == 0) = false := by simp [h1]
      have step : parseSizeEncodingAux c s ((b :: b2 :: v2) ++ rest) =
          parseSizeEncodingAux (c + 1) (((b &&& 127) <<< (4 + 7 * c)) + s)
            ((b2 :: v2) ++ rest) := by
        rw [List.cons_append]
        conv_lhs => rw [parseSizeEncodingAux]
        simp only [hb, Bool.false_eq_true, if_false]
      rw [step, ih (c + 1) _ rest h2]
      simp only [shift47Value, Prod.mk.injEq]
      constructor
      · omega
      · trivial

theorem shift47Value_eq_16_leb :
    ∀ v : List Nat, ∀ c, shift47Value c v = 16 * leb128Value c v := by
  intro v
  induction v with
  | nil => intro c; simp [shift47Value, leb128Value]
  | cons b v ih =>
    intro c
    simp only [shift47Value, leb128Value, ih (c + 1), Nat.shiftLeft_eq, pow_add]
    ring

/-- C3 fails on the code: the delta-size field `0x01` decodes to 16 under
`parse_size_encoding` (called with base size 0 by `reconstruct_object`),
not to the standard little-endian varint value 1 — the first byte
contributes its seven bits at shift 4, not shift 0. -/
theorem c3_counterexample :
    parseSizeEncoding [1] 0 = (16, []) ∧
    leb128Value 0 [1] = 1 ∧ (16 : Nat) ≠ 1 := by decide

/-- C3 amended: `reconstruct_object` consumes each of the two leading size
fields with the little-endian continuation rule (stop at the first byte
with the high bit clear), but accumulates byte `i` at shift `4 + 7 * i` —
the entry-header accumulation reused with base size 0 — so the decoded
value is sixteen times the standard varint value; both values are then
discarded. -/
theorem c3_size_encoding (v rest : List Nat) (h : isVarint v = true) :
    parseSizeEncoding (v ++ rest) 0 = (16 * leb128Value 0 v, rest) := by
  unfold parseSizeEncoding
  rw [parseSizeEncodingAux_varint v 0 0 rest h, shift47Value_eq_16_leb v 0]
  simp

/-- Witness for C3 at the two-byte varint `0x81 0x01`. -/
theorem c3_size_encoding_witness :
    parseSizeEncoding ([129, 1] ++ [7]) 0 = (16 * leb128Value 0 [129, 1], [7]) :=
  c3_size_encoding [129, 1] [7] (by decide)

/-! ## C4 -/

/-- C4 fails on the code: against a two-byte base, a delta declaring base
size and target size fields of `0x05` (decoded 80 by the source
accumulation, 5 as a standard varint, either way unequal to 2) and whose
instructions produce a one-byte output resolves successfully to that
output; neither size is ever compared to anything and no `CorruptDelta`
failure occurs. -/
theorem c4_counterexample :
    (parseSizeEncoding [5, 5, 1, 65] 0).1 = 80 ∧
    leb128Value 0 [5] = 5 ∧ (80 : Nat) ≠ 2 ∧ (5 : Nat) ≠ 2 ∧
    (reconstructObject [5, 5, 1, 65]
        { id := [], content := [65, 66], objectType := GitObjectType.Blob }).map
      GitObject.content = some [65] ∧
    (1 : Nat) ≠ 80 ∧ (1 : Nat) ≠ 5 := by decide

/-- C4 amended: `reconstruct_object` parses the two leading size fields
only to discard them — its result is a function of the instruction bytes
and the base alone, identical for any two pairs of declared size fields,
with no verification of either size. -/
theorem c4_sizes_unchecked (v1 v2 w1 w2 instrs : List Nat) (base : GitObject)
    (hv1 : isVarint v1 = true) (hv2 : isVarint v2 = true)
    (hw1 : isVarint w1 = true) (hw2 : isVarint w2 = true) :
    reconstructObject (v1 ++ (v2 ++ instrs)) base =
      reconstructObject (w1 ++ (w2 ++ instrs)) base := by
  simp only [reconstructObject, parseSizeEncoding]
  rw [parseSizeEncodingAux_varint v1 0 0 (v2 ++ instrs) hv1,
      parseSizeEncodingAux_varint w1 0 0 (w2 ++ instrs) hw1]
  simp only
  rw [parseSizeEncodingAux_varint v2 0 0 instrs hv2,
      parseSizeEncodingAux_varint w2 0 0 instrs hw2]

/-- Witness for C4: two deltas with different declared sizes but the same
instruction stream resolve to the same object. -/
theorem c4_sizes_unchecked_witness :
    reconstructObject ([1] ++ ([2] ++ [1, 65]))
        { id := [], content := [65, 66], objectType := GitObjectType.Blob } =
      reconstructObject ([3] ++ ([5] ++ [1, 65]))
        { id := [], content := [65, 66], objectType := GitObjectType.Blob } :=
  c4_sizes_unchecked [1] [2] [3] [5] [1, 65] _ (by decide) (by decide) (by decide) (by decide)

/-! ## C7 -/

/-- C7 fails on the code: a delta whose instruction stream begins with the
reserved byte `0x00` resolves successfully — the zero byte falls into the
literal-add branch with length `0 &&& 0x7f = 0`, appends nothing, and the
loop continues; no `CorruptDelta` failure occurs. -/
theorem c7_counterexample :
    (reconstructObject [5, 5, 0, 1, 65]
        { id := [], content := [65, 66], objectType := GitObjectType.Blob }).map
      GitObject.content = some [65] := by decide

/-- C7 amended: a zero instruction byte is treated as a literal add of
length zero — it appends nothing and processing continues with the
remaining bytes; it never causes a failure. -/
theorem c7_zero_instruction (base rest acc : List Nat) :
    processInstructions base (0 :: rest) acc = processInstructions base rest acc := by
  simp [processInstructions, processInstrAux]

/-! ## C6 and C10 -/

theorem readMaskBytesAux_spec :
    ∀ count i mask acc bytes,
    (selBitsFrom i count mask).length ≤ bytes.length →
    readMaskBytesAux i count mask acc bytes =
      some (acc + (takeMasked (selBitsFrom i count mask) bytes).1,
            (takeMasked (selBitsFrom i count mask) bytes).2) := by
  intro count
  induction count with
  | zero => intro i mask acc bytes _; simp [readMaskBytesAux, selBitsFrom, takeMasked]
  | succ n ih =>
    intro i mask acc bytes hlen
    have hunSel : selBitsFrom i (n + 1) mask =
        (if mask &&& (1 <<< i) == 0 then selBitsFrom (i + 1) n mask
         else i :: selBitsFrom (i + 1) n mask) := rfl
    by_cases hbit : (mask &&& (1 <<< i) == 0) = true
    · rw [show selBitsFrom i (n + 1) mask = selBitsFrom (i + 1) n mask by
        rw [hunSel]; simp [hbit]] at hlen ⊢
      have hread : readMaskBytesAux i (n + 1) mask acc bytes =
          readMaskBytesAux (i + 1) n mask acc bytes := by
        cases bytes with
        | nil =>
          rw [show readMaskBytesAux i (n + 1) mask acc ([] : List Nat) =
              (if mask &&& (1 <<< i) == 0 then readMaskBytesAux (i + 1) n mask acc []
               else none) from rfl]
          simp [hbit]
        | cons b bs =>
          rw [show readMaskBytesAux i (n + 1) mask acc (b :: bs) =
              (if mask &&& (1 <<< i) == 0 then readMaskBytesAux (i + 1) n mask acc (b :: bs)
               else readMaskBytesAux (i + 1) n mask (acc + (b <<< (i * 8))) bs) from rfl]
          simp [hbit]
      rw [hread]
      exact ih (i + 1) mask acc bytes hlen
    · have hsel : selBitsFrom i (n + 1) mask = i :: selBitsFrom (i + 1) n mask := by
        rw [hunSel]; simp [hbit]
      rw [hsel] at hlen ⊢
      cases bytes with
      | nil => simp at hlen
      | cons b bs =>
        have hlen2 : (selBitsFrom (i + 1) n mask).length ≤ bs.length := by
          simpa using hlen
        rw [show readMaskBytesAux i (n + 1) mask acc (b :: bs) =
              readMaskBytesAux (i + 1) n mask (acc + (b <<< (i * 8))) bs by
          rw [show readMaskBytesAux i (n + 1) mask acc (b :: bs) =
              (if mask &&& (1 <<< i) == 0 then readMaskBytesAux (i + 1) n mask acc (b :: bs)
               else readMaskBytesAux (i + 1) n mask (acc + (b <<< (i * 8))) bs) from rfl]
          simp [hbit]]
        rw [ih (i + 1) mask (acc + (b <<< (i * 8))) bs hlen2]
        rw [show takeMasked (i :: selBitsFrom (i + 1) n mask) (b :: bs) =
              ((b <<< (8 * i)) + (takeMasked (selBitsFrom (i + 1) n mask) bs).1,
               (takeMasked (selBitsFrom (i + 1) n mask) bs).2) from rfl]
        simp only [Option.some.injEq, Prod.mk.injEq]
        constructor
        · rw [Nat.mul_comm i 8]; omega
        · trivial

/-- C6: for an instruction byte with bit 7 set, the loop in
`reconstruct_object` reads one offset byte per set bit among the low four
bits and one size byte per set bit among bits 6-4 (byte for bit `i`
contributing eight bits at position `8 * i`, absent bytes contributing
zero, per `takeMasked` over `selBitsFrom`), replaces a zero size with
`0x10000`, and appends exactly `base[offset .. offset + size]` — `size`
bytes — to the output before continuing. -/
theorem c6_copy_from_base (f c offv szv size : Nat)
    (bytes rest1 rest2 base acc : List Nat)
    (hmsb : c >>> 7 = 1)
    (hoLen : (selBitsFrom 0 4 (c &&& 15)).length ≤ bytes.length)
    (ho : takeMasked (selBitsFrom 0 4 (c &&& 15)) bytes = (offv, rest1))
    (hsLen : (selBitsFrom 0 3 ((c >>> 4) &&& 7)).length ≤ rest1.length)
    (hs : takeMasked (selBitsFrom 0 3 ((c >>> 4) &&& 7)) rest1 = (szv, rest2))
    (hsize : size = if szv == 0 then 65536 else szv)
    (hwrap : offv + size < 4294967296)
    (hrange : offv + size ≤ base.length) :
    processInstrAux base (f + 1) (c :: bytes) acc =
      processInstrAux base f rest2 (acc ++ (base.drop offv).take size) ∧
    ((base.drop offv).take size).length = size := by
  constructor
  · rw [show processInstrAux base (f + 1) (c :: bytes) acc =
        (if c >>> 7 == 1 then
          match readMaskBytesAux 0 4 (c &&& 15) 0 bytes with
          | none => none
          | some (offv, r1) =>
            match readMaskBytesAux 0 3 ((c >>> 4) &&& 7) 0 r1 with
            | none => none
            | some (szv, r2) =>
              let size := if szv == 0 then 65536 else szv
              if offv + size ≤ base.length then
                processInstrAux base f r2 (acc ++ (base.drop offv).take size)
              else none
        else
          let size := c &&& 127
          if size ≤ bytes.length then
            processInstrAux base f (bytes.drop size) (acc ++ bytes.take size)
          else none) from rfl]
    rw [readMaskBytesAux_spec 4 0 (c &&& 15) 0 bytes hoLen, ho]
    simp only [hmsb, Nat.zero_add, beq_self_eq_true, if_true]
    rw [readMaskBytesAux_spec 3 0 ((c >>> 4) &&& 7) 0 rest1 hsLen, hs]
    simp only [Nat.zero_add]
    rw [← hsize, if_pos hrange]
  · have h1 : (base.drop offv).length = base.length - offv := List.length_drop offv base
    have h2 : ((base.drop offv).take size).length = min size (base.drop offv).length :=
      List.length_take size (base.drop offv)
    omega

/-- Witness for C6: instruction byte `0x91` (one offset byte, one size
byte) against a six-byte base copies bytes 2, 3, 4. -/
theorem c6_copy_from_base_witness :
    processInstrAux [10, 11, 12, 13, 14, 15] 1 [145, 2, 3] [] =
      processInstrAux [10, 11, 12, 13, 14, 15] 0 []
        ([] ++ (([10, 11, 12, 13, 14, 15].drop 2).take 3)) ∧
    (([10, 11, 12, 13, 14, 15].drop 2).take 3).length = 3 :=
  c6_copy_from_base 0 145 2 3 3 [2, 3] [3] [] [10, 11, 12, 13, 14, 15] []
    (by decide) (by decide) (by decide) (by decide) (by decide) (by decide)
    (by decide) (by decide)

/-- C10: the copy instruction slices `base[offset .. offset + size]`
directly: when `offset + size` is within the base the slice is appended
and the loop continues, and when `offset + size` exceeds the base length
the process panics (modelled `none`) — `reconstruct_object` has no error
return at all, so no `CorruptDelta` error is possible there. -/
theorem c10_copy_bounds (f c offv szv size : Nat)
    (bytes rest1 rest2 base acc : List Nat)
    (hmsb : c >>> 7 = 1)
    (hoLen : (selBitsFrom 0 4 (c &&& 15)).length ≤ bytes.length)
    (ho : takeMasked (selBitsFrom 0 4 (c &&& 15)) bytes = (offv, rest1))
    (hsLen : (selBitsFrom 0 3 ((c >>> 4) &&& 7)).length ≤ rest1.length)
    (hs : takeMasked (selBitsFrom 0 3 ((c >>> 4) &&& 7)) rest1 = (szv, rest2))
    (hsize : size = if szv == 0 then 65536 else szv)
    (hwrap : offv + size < 4294967296) :
    (offv + size ≤ base.length →
      processInstrAux base (f + 1) (c :: bytes) acc =
        processInstrAux base f rest2 (acc ++ (base.drop offv).take size)) ∧
    (base.length < offv + size →
      processInstrAux base (f + 1) (c :: bytes) acc = none) := by
  have hstep : processInstrAux base (f + 1) (c :: bytes) acc =
      (if offv + size ≤ base.length then
        processInstrAux base f rest2 (acc ++ (base.drop offv).take size)
      else none) := by
    rw [show processInstrAux base (f + 1) (c :: bytes) acc =
        (if c >>> 7 == 1 then
          match readMaskBytesAux 0 4 (c &&& 15) 0 bytes with
          | none => none
          | some (offv, r1) =>
            match readMaskBytesAux 0 3 ((c >>> 4) &&& 7) 0 r1 with
            | none => none
            | some (szv, r2) =>
              let size := if szv == 0 then 65536 else szv
              if offv + size ≤ base.length then
                processInstrAux base f r2 (acc ++ (base.drop offv).take size)
              else none
        else
          let size := c &&& 127
          if size ≤ bytes.length then
            processInstrAux base f (bytes.drop size) (acc ++ bytes.take size)
          else none) from rfl]
    rw [readMaskBytesAux_spec 4 0 (c &&& 15) 0 bytes hoLen, ho]
    simp only [hmsb, Nat.zero_add, beq_self_eq_true, if_true]
    rw [readMaskBytesAux_spec 3 0 ((c >>> 4) &&& 7) 0 rest1 hsLen, hs]
    simp only [Nat.zero_add]
    rw [← hsize]
  constructor
  · intro hin; rw [hstep, if_pos hin]
  · intro hout; rw [hstep, if_neg (by omega)]

/-- Witness for C10: instruction byte `0x80` (no offset or size bytes, so
size `0x10000`) against a three-byte base is out of range and panics. -/
theorem c10_copy_bounds_witness :
    processInstrAux [1, 2, 3] 1 [128] [] = none :=
  (c10_copy_bounds 0 128 0 0 65536 [] [] [] [1, 2, 3] []
    (by decide) (by decide) (by decide) (by decide) (by decide) (by decide)
    (by decide)).2 (by decide)

/-! ## C8 -/

/-- All writes of the `populate_refs` loop, one ref at a time. -/
def flatWrites (head : List Nat) : List (List Nat × List Nat) →
    List (List Nat × List Nat)
  | [] => []
  | r :: rest => refWrites head r ++ flatWrites head rest

theorem foldl_refWrites (head : List Nat) :
    ∀ refs : List (List Nat × List Nat), ∀ init,
    refs.foldl (fun ws r => ws ++ refWrites head r) init = init ++ flatWrites head refs := by
  intro refs
  induction refs with
  | nil => intro init; simp [flatWrites]
  | cons r rest ih =>
    intro init
    simp only [List.foldl_cons, flatWrites, ih (init ++ refWrites head r)]
    simp [List.append_assoc]

theorem mem_flatWrites (head : List Nat) (w : List Nat × List Nat)
    (r : List Nat × List Nat) :
    ∀ refs : List (List Nat × List Nat), r ∈ refs → w ∈ refWrites head r →
    w ∈ flatWrites head refs := by
  intro refs
  induction refs with
  | nil => intro h; simp at h
  | cons x rest ih =>
    intro hmem hw
    rcases List.mem_cons.mp hmem with hx | hrest
    · subst hx; exact List.mem_append.mpr (Or.inl hw)
    · exact List.mem_append.mpr (Or.inr (ih hrest hw))

theorem bytesIsPref_append (p : List Nat) :
    ∀ q b : List Nat, p.length ≤ q.length →
    bytesIsPref p (q ++ b) = bytesIsPref p q := by
  induction p with
  | nil => intro q b _; simp [bytesIsPref]
  | cons a as ih =>
    intro q b hl
    cases q with
    | nil => simp at hl
    | cons x xs =>
      have hx : bytesIsPref (a :: as) ((x :: xs) ++ b) =
          (a == x && bytesIsPref as (xs ++ b)) := rfl
      have hy : bytesIsPref (a :: as) (x :: xs) = (a == x && bytesIsPref as xs) := rfl
      rw [hx, hy, ih xs b (by simpa using hl)]

/-- C8 fails on the code: `populate_refs` writes `.git/HEAD` with content
`ref: refs/heads/master` and the branch file with the bare hash — neither
file content ends in a newline, so `HEAD` does not contain
`ref: refs/heads/master` followed by a newline. -/
theorem c8_counterexample :
    populateRefsWrites
        [(strB "HEAD", strB "ce013625030ba8dba906f756967f9e9ca394464a"),
         (strB "refs/heads/master", strB "ce013625030ba8dba906f756967f9e9ca394464a")] =
      some [(strB ".git/HEAD", strB "ref: refs/heads/master"),
            (strB ".git/refs/heads/master", strB "ce013625030ba8dba906f756967f9e9ca394464a")] ∧
    (strB ".git/HEAD", strB "ref: refs/heads/master\n") ∉
      [(strB ".git/HEAD", strB "ref: refs/heads/master"),
       (strB ".git/refs/heads/master", strB "ce013625030ba8dba906f756967f9e9ca394464a")] ∧
    (strB ".git/refs/heads/master", strB "ce013625030ba8dba906f756967f9e9ca394464a\n") ∉
      [(strB ".git/HEAD", strB "ref: refs/heads/master"),
       (strB ".git/refs/heads/master", strB "ce013625030ba8dba906f756967f9e9ca394464a")] := by
  decide

/-- C8 amended: after a successful clone, for any branch ref that carries
the advertised head hash (and is not the `HEAD`, `refs/pull`, `refs/tags`
or `refs/remotes` case), the writes of `populate_refs` include `.git/HEAD`
with content `ref: ` followed by the ref name, and `.git/<name>` with the
advertised hash as its exact content — both without a trailing newline. -/
theorem c8_head_and_branch (refs : List (List Nat × List Nat))
    (h name : List Nat) (ws : List (List Nat × List Nat))
    (hfind : refs.find? (fun r => r.1 == strB "HEAD") = some (strB "HEAD", h))
    (hmem : (name, h) ∈ refs)
    (hnh : (name == strB "HEAD") = false)
    (hnp : bytesIsPref (strB "refs/pull") name = false)
    (hnt : bytesIsPref (strB "refs/tags") name = false)
    (hnr : bytesIsPref (strB "refs/remotes") name = false)
    (hpop : populateRefsWrites refs = some ws) :
    (strB ".git/HEAD", strB "ref: " ++ name) ∈ ws ∧
    (strB ".git/" ++ name, h) ∈ ws := by
  have hun : populateRefsWrites refs =
      (match refs.find? (fun r => r.1 == strB "HEAD") with
       | none => none
       | some hd => some (refs.foldl (fun ws r => ws ++ refWrites hd.2 r) [])) := rfl
  rw [hun, hfind] at hpop
  simp only [Option.some.injEq] at hpop
  rw [foldl_refWrites h refs []] at hpop
  simp only [List.nil_append] at hpop
  have hrw : refWrites h (name, h) =
      [(strB ".git/HEAD", strB "ref: " ++ name), (strB ".git/" ++ name, h)] := by
    unfold refWrites
    simp [hnh, hnp, hnt, hnr]
  subst hpop
  constructor
  · exact mem_flatWrites h _ (name, h) refs hmem (by rw [hrw]; simp)
  · exact mem_flatWrites h _ (name, h) refs hmem (by rw [hrw]; simp)

/-- Witness for C8 at a two-ref advertisement with default branch
`master`. -/
theorem c8_head_and_branch_witness :
    (strB ".git/HEAD", strB "ref: " ++ strB "refs/heads/master") ∈
      [(strB ".git/HEAD", strB "ref: refs/heads/master"),
       (strB ".git/refs/heads/master", strB "aa")] ∧
    (strB ".git/" ++ strB "refs/heads/master", strB "aa") ∈
      [(strB ".git/HEAD", strB "ref: refs/heads/master"),
       (strB ".git/refs/heads/master", strB "aa")] :=
  c8_head_and_branch
    [(strB "HEAD", strB "aa"), (strB "refs/heads/master", strB "aa")]
    (strB "aa") (strB "refs/heads/master")
    [(strB ".git/HEAD", strB "ref: refs/heads/master"),
     (strB ".git/refs/heads/master", strB "aa")]
    (by decide) (by decide) (by decide) (by decide) (by decide) (by decide) (by decide)

/-! ## C9 -/

/-- C9 fails on the code: on a well-formed two-entry tree whose first
entry's binary OID contains a `0x00` byte (here at offset 5), `ls_tree`
splits the payload on zero bytes, mis-slices the entries, and indexes the
accumulator out of bounds — a panic, modelled `none` — instead of printing
`a` and `b`; the spec-side decoder that takes exactly 20 OID bytes after
the name terminator recovers both names in sort order. -/
theorem c9_ls_tree_zero_byte :
    lsTreeNames (strB "tree 58" ++ ([0] ++ (strB "100644 a" ++ ([0] ++
        (([1, 1, 1, 1, 1, 0] ++ List.replicate 14 2) ++ (strB "100644 b" ++ ([0] ++
        List.replicate 20 3))))))) = none ∧
    specTreeNames (strB "100644 a" ++ ([0] ++
        (([1, 1, 1, 1, 1, 0] ++ List.replicate 14 2) ++ (strB "100644 b" ++ ([0] ++
        List.replicate 20 3))))) = some [strB "a", strB "b"] ∧
    lsTreeNames (strB "tree 58" ++ ([0] ++ (strB "100644 a" ++ ([0] ++
        (List.replicate 20 7 ++ (strB "100644 b" ++ ([0] ++
        List.replicate 20 3))))))) = some [strB "a", strB "b"] := by decide

end RGit
